import Mathlib

/-!
Shallow embedding of the remote-synchronization progress tracker of the
`iroh-test` repository, together with proofs checking the natural-language
specification against the code.

The core is `EventRemoteSync::emit_doc_edit` (src/doc_subcribe.rs): a state
machine over a pending-content hash map, four `AtomicU64` progress counters,
two one-shot boolean flags, an mpsc notification channel and an optional
background-task join handle.  We model the per-session state as a plain
structure, the hash map as an association list (keys are the short content
hashes), the counters as natural numbers carrying explicit 64-bit wrapping
arithmetic (`wadd` / `wsub` mirror `fetch_add` / `fetch_sub` on `AtomicU64`),
the channel as the list of messages sent so far, and the join handle as a
boolean plus a counter of `abort()` calls.
-/

/-- 2^64, the modulus of Rust's `u64` / `AtomicU64` arithmetic. -/
def U64 : Nat := 2 ^ 64

/-- `AtomicU64::fetch_add` result: wrapping addition modulo 2^64. -/
def wadd (a b : Nat) : Nat := (a + b) % U64

/-- `AtomicU64::fetch_sub` result: wrapping subtraction modulo 2^64
(for `a b < 2^64` this is exactly Rust's two's-complement wrap). -/
def wsub (a b : Nat) : Nat := (a + (U64 - b % U64)) % U64

/-- The policy-excluded table name compared against in `emit_doc_edit`
(`if table_name.as_str() == "resource" { return; }`). -/
def resourceName : String := "resource"

/-- `RemoteUpdateData` (src/doc_subcribe.rs): the pending-item metadata
stored in the hash map. -/
structure RemoteUpdateData where
  key : String
  size : Nat
  table_name : String
deriving DecidableEq

/-- Per-session state of `EventRemoteSync` (src/doc_subcribe.rs).
`hashmap` is the pending index; `remaining_remote_num/bytes` are the
lifetime counters, `queue_remote_num/bytes` the queue counters;
`init_successed` is set by `SyncFinished`, `init_blob_successed` by
`PendingContentReady`; `tx_sent` records the strings sent on the mpsc
channel; `handle` records whether a `JoinHandle` is stored (`Some`) and
`aborts` counts the `abort()` calls performed on it. -/
structure EventRemoteSync where
  hashmap : List (String × RemoteUpdateData)
  remaining_remote_num : Nat
  queue_remote_num : Nat
  remaining_remote_bytes : Nat
  queue_remote_bytes : Nat
  table_name : String
  init_successed : Bool
  init_blob_successed : Bool
  tx_sent : List String
  handle : Bool
  aborts : Nat
deriving DecidableEq

/-- `HashMap::get` on the association list (first matching key). -/
def alist_get (m : List (String × RemoteUpdateData)) (k : String) :
    Option RemoteUpdateData :=
  match m with
  | [] => none
  | (k', v) :: rest => if k' = k then some v else alist_get rest k

/-- `HashMap::entry(k).or_insert(v)`: insert only when the key is absent. -/
def alist_or_insert (m : List (String × RemoteUpdateData)) (k : String)
    (v : RemoteUpdateData) : List (String × RemoteUpdateData) :=
  match alist_get m k with
  | some _ => m
  | none => (k, v) :: m

/-- `HashMap::remove_entry(k)`: drop the first entry with key `k`. -/
def alist_remove (m : List (String × RemoteUpdateData)) (k : String) :
    List (String × RemoteUpdateData) :=
  match m with
  | [] => []
  | (k', v) :: rest => if k' = k then rest else (k', v) :: alist_remove rest k

/-- The `LiveEvent` variants consumed by `emit_doc_edit`.  For
`InsertRemote` we carry the short content hash, the UTF-8 decoded key and
the content length; the other payloads (peer ids, sync-event details,
local entries) are not inspected by the handler and are omitted. -/
inductive LiveEvent where
  | insertRemote (contentHash : String) (contentKey : String) (contentSize : Nat)
  | insertLocal
  | contentReady (hash : String)
  | pendingContentReady
  | neighborUp
  | neighborDown
  | syncFinished
deriving DecidableEq

/-- `EventRemoteSync::new` (src/doc_subcribe.rs lines 64-86): empty map,
zero counters, both flags false, empty channel, `handle: None`.
`subscribe_doc` (src/store.rs lines 294-309) constructs the session with
`new` and never assigns the spawned task's `JoinHandle` to `handle`, so a
registry-created session starts (and stays) with `handle = false`. -/
def EventRemoteSync.new (table_name : String) : EventRemoteSync where
  hashmap := []
  remaining_remote_num := 0
  queue_remote_num := 0
  remaining_remote_bytes := 0
  queue_remote_bytes := 0
  table_name := table_name
  init_successed := false
  init_blob_successed := false
  tx_sent := []
  handle := false
  aborts := 0

/-- `EventRemoteSync::emit_doc_edit` (src/doc_subcribe.rs lines 93-237),
one event step.  Logging (`println!`) is omitted; every state mutation is
reproduced in source order. -/
def emit_doc_edit (s : EventRemoteSync) (e : LiveEvent) : EventRemoteSync :=
  match e with
  | .insertRemote contentHash contentKey contentSize =>
    if s.table_name = resourceName then s
    else if contentSize = 0 then s
    else
      let s' := { s with
        hashmap := alist_or_insert s.hashmap contentHash
          ⟨contentKey, contentSize, s.table_name⟩ }
      if s'.init_successed = false then
        { s' with
          remaining_remote_num := wadd s'.remaining_remote_num 1
          remaining_remote_bytes := wadd s'.remaining_remote_bytes contentSize
          queue_remote_num := wadd s'.queue_remote_num 1
          queue_remote_bytes := wadd s'.queue_remote_bytes contentSize }
      else s'
  | .insertLocal => s
  | .contentReady hash =>
    match alist_get s.hashmap hash with
    | none => s
    | some rud =>
      let s' := { s with hashmap := alist_remove s.hashmap hash }
      if s'.init_blob_successed = false then
        { s' with
          tx_sent := s'.tx_sent ++ [rud.key]
          queue_remote_num := wsub s'.queue_remote_num 1
          queue_remote_bytes := wsub s'.queue_remote_bytes rud.size }
      else s'
  | .pendingContentReady =>
    let s' := { s with init_blob_successed := true }
    if s'.handle then { s' with handle := false, aborts := s'.aborts + 1 }
    else s'
  | .neighborUp => s
  | .neighborDown => s
  | .syncFinished => { s with init_successed := true }

/-- Folding `emit_doc_edit` over an event trace, as the background task of
`subscribe_doc` does over its subscription stream. -/
def runEvents (s : EventRemoteSync) (es : List LiveEvent) : EventRemoteSync :=
  es.foldl emit_doc_edit s

/-- Non-excluded table name used by the witnesses ("resources" is the name
`create_files` subscribes the resource dataset under). -/
def resourcesName : String := "resources"

/-- Sample digest used in concrete scenarios. -/
def dHash : String := "d1"

/-- Sample logical key used in concrete scenarios. -/
def kKey : String := "k1"

/-- Claim C6: a `ContentReady` for a digest with no entry in the pending
index leaves the whole session state unchanged: no index mutation, no
counter change, no notification, and no error (the handler just returns). -/
theorem C6_unknown_digest_noop (s : EventRemoteSync) (h : String)
    (habs : alist_get s.hashmap h = none) :
    emit_doc_edit s (.contentReady h) = s := by
  simp [emit_doc_edit, habs]

/-- Witness for C6 at a concrete session and digest. -/
theorem C6_unknown_digest_witness :
    emit_doc_edit (EventRemoteSync.new resourcesName) (.contentReady dHash) =
      EventRemoteSync.new resourcesName :=
  C6_unknown_digest_noop (EventRemoteSync.new resourcesName) dHash rfl

/-- Exact value of a wrapping `u64` addition that does not overflow. -/
theorem wadd_eq_of_lt {a b : Nat} (h : a + b < U64) : wadd a b = a + b :=
  Nat.mod_eq_of_lt h

/-- Exact value of a wrapping `u64` subtraction that does not underflow. -/
theorem wsub_eq_of_le {a b : Nat} (hba : b ≤ a) (ha : a < U64) :
    wsub a b = a - b := by
  have hb : b < U64 := lt_of_le_of_lt hba ha
  have hU : 0 < U64 := by
    simp [U64]
  unfold wsub
  rw [Nat.mod_eq_of_lt hb]
  have h1 : a + (U64 - b) = U64 + (a - b) := by omega
  rw [h1, Nat.add_mod_left, Nat.mod_eq_of_lt (by omega)]

/-- A key absent from the association list occurs zero times in it. -/
theorem countP_eq_zero_of_alist_get_none
    (m : List (String × RemoteUpdateData)) (k : String)
    (h : alist_get m k = none) :
    List.countP (fun p => p.1 == k) m = 0 := by
  induction m with
  | nil => simp
  | cons hd tl ih =>
    obtain ⟨k', v⟩ := hd
    by_cases hk : k' = k
    · simp [alist_get, hk] at h
    · simp only [alist_get, if_neg hk] at h
      simp [List.countP_cons, hk, ih h]

/-- Claim C1, counterexample: the counter freeze after `AllClear`
(`PendingContentReady`) does not hold for `RemoteInsert`.  The insert
counters are gated on `init_successed` (set by `SyncFinished`), not on
`init_blob_successed`, so a `RemoteInsert` delivered right after
`AllClear` still increments `lifetimePendingCount` from 0 to 1 even
though `allContentMaterialized` is already true. -/
theorem C1_post_allclear_insert_increments :
    (runEvents (EventRemoteSync.new resourcesName)
        [.pendingContentReady]).init_blob_successed = true ∧
    (runEvents (EventRemoteSync.new resourcesName)
        [.pendingContentReady]).remaining_remote_num = 0 ∧
    (runEvents (EventRemoteSync.new resourcesName)
        [.pendingContentReady, .insertRemote dHash kKey 5]).remaining_remote_num
      = 1 := by
  decide

/-- Claim C1 (amended): once BOTH one-shot flags are set — `AllClear` has
set `allContentMaterialized` and `RoundComplete`/`SyncFinished` has set
`metadataCaughtUp` — every subsequent event leaves all four counters
unchanged, while `ContentReady` still removes a present entry from the
pending index and `RemoteInsert` still indexes the item. -/
theorem C1_amended_freeze_after_both_flags (s : EventRemoteSync) (e : LiveEvent)
    (hb : s.init_blob_successed = true) (hi : s.init_successed = true) :
    (emit_doc_edit s e).remaining_remote_num = s.remaining_remote_num ∧
    (emit_doc_edit s e).remaining_remote_bytes = s.remaining_remote_bytes ∧
    (emit_doc_edit s e).queue_remote_num = s.queue_remote_num ∧
    (emit_doc_edit s e).queue_remote_bytes = s.queue_remote_bytes ∧
    (∀ h rud, e = .contentReady h → alist_get s.hashmap h = some rud →
      (emit_doc_edit s e).hashmap = alist_remove s.hashmap h) ∧
    (∀ D k S, e = .insertRemote D k S → s.table_name ≠ resourceName →
      S ≠ 0 →
      (emit_doc_edit s e).hashmap =
        alist_or_insert s.hashmap D ⟨k, S, s.table_name⟩) := by
  cases e with
  | insertRemote D k S =>
    by_cases hres : s.table_name = resourceName
    · simp [emit_doc_edit, hres]
    · by_cases hS : S = 0
      · simp [emit_doc_edit, hres, hS]
      · simp [emit_doc_edit, hres, hS, hi]
  | insertLocal => simp [emit_doc_edit]
  | contentReady h =>
    have hrm : ∀ h1 rud, LiveEvent.contentReady h = .contentReady h1 →
        alist_get s.hashmap h1 = some rud →
        (emit_doc_edit s (.contentReady h)).hashmap =
          alist_remove s.hashmap h1 := by
      intro h1 rud heq hsome
      injection heq with hh
      subst hh
      simp [emit_doc_edit, hsome, hb]
    cases hget : alist_get s.hashmap h with
    | none =>
      exact ⟨by simp [emit_doc_edit, hget], by simp [emit_doc_edit, hget],
        by simp [emit_doc_edit, hget], by simp [emit_doc_edit, hget],
        hrm, by simp⟩
    | some rud =>
      exact ⟨by simp [emit_doc_edit, hget, hb],
        by simp [emit_doc_edit, hget, hb],
        by simp [emit_doc_edit, hget, hb],
        by simp [emit_doc_edit, hget, hb],
        hrm, by simp⟩
  | pendingContentReady =>
    by_cases hh : s.handle <;> simp [emit_doc_edit, hh]
  | neighborUp => simp [emit_doc_edit]
  | neighborDown => simp [emit_doc_edit]
  | syncFinished => simp [emit_doc_edit]

/-- Session state with both one-shot flags already set, used by the C1
witness. -/
def sBothFlags : EventRemoteSync :=
  { EventRemoteSync.new resourcesName with
    init_successed := true
    init_blob_successed := true
    remaining_remote_num := 3
    queue_remote_num := 2
    remaining_remote_bytes := 30
    queue_remote_bytes := 20 }

/-- Witness for amended C1 at a concrete frozen session and a concrete
`RemoteInsert`: the counters stay put and the item is still indexed. -/
theorem C1_freeze_witness :
    (emit_doc_edit sBothFlags (.insertRemote dHash kKey 5)).remaining_remote_num
        = sBothFlags.remaining_remote_num ∧
    (emit_doc_edit sBothFlags
        (.insertRemote dHash kKey 5)).remaining_remote_bytes
      = sBothFlags.remaining_remote_bytes ∧
    (emit_doc_edit sBothFlags (.insertRemote dHash kKey 5)).queue_remote_num
      = sBothFlags.queue_remote_num ∧
    (emit_doc_edit sBothFlags (.insertRemote dHash kKey 5)).queue_remote_bytes
      = sBothFlags.queue_remote_bytes ∧
    (emit_doc_edit sBothFlags (.insertRemote dHash kKey 5)).hashmap =
      alist_or_insert sBothFlags.hashmap dHash
        ⟨kKey, 5, sBothFlags.table_name⟩ :=
  ⟨(C1_amended_freeze_after_both_flags sBothFlags
      (.insertRemote dHash kKey 5) rfl rfl).1,
    (C1_amended_freeze_after_both_flags sBothFlags
      (.insertRemote dHash kKey 5) rfl rfl).2.1,
    (C1_amended_freeze_after_both_flags sBothFlags
      (.insertRemote dHash kKey 5) rfl rfl).2.2.1,
    (C1_amended_freeze_after_both_flags sBothFlags
      (.insertRemote dHash kKey 5) rfl rfl).2.2.2.1,
    (C1_amended_freeze_after_both_flags sBothFlags
      (.insertRemote dHash kKey 5) rfl rfl).2.2.2.2.2 dHash kKey 5 rfl
      (by decide) (by decide)⟩

/-- Claim C2, counterexample: delivering the same `RemoteInsert` twice
before resolution leaves exactly one pending-index entry, but
`lifetimePendingCount` rises to 2, not 1 — the counter increments at
lines 146-156 of src/doc_subcribe.rs are executed per event, not only
when `or_insert` actually inserted. -/
theorem C2_duplicate_insert_double_counts :
    (runEvents (EventRemoteSync.new resourcesName)
        [.insertRemote dHash kKey 5, .insertRemote dHash kKey 5]).hashmap.length
      = 1 ∧
    (runEvents (EventRemoteSync.new resourcesName)
        [.insertRemote dHash kKey 5]).remaining_remote_num = 1 ∧
    (runEvents (EventRemoteSync.new resourcesName)
        [.insertRemote dHash kKey 5,
          .insertRemote dHash kKey 5]).remaining_remote_num = 2 := by
  decide

/-- Claim C2 (amended): delivering `RemoteInsert{D,S}` twice before `D`
resolves (fresh digest, non-excluded table, pre-`SyncFinished`, no `u64`
overflow) leaves exactly one pending-index entry for `D`, but increases
`lifetimePendingCount` by exactly 2 and `lifetimePendingBytes` by exactly
`2*S`: the pending index is idempotent, the counters are not. -/
theorem C2_amended_duplicate_insert (s : EventRemoteSync) (D k : String)
    (S : Nat)
    (hres : ¬s.table_name = resourceName) (hS : ¬S = 0)
    (hinit : s.init_successed = false)
    (hfresh : alist_get s.hashmap D = none)
    (hn : s.remaining_remote_num + 2 < U64)
    (hb : s.remaining_remote_bytes + (S + S) < U64) :
    (runEvents s [.insertRemote D k S, .insertRemote D k S]).hashmap =
      (D, ⟨k, S, s.table_name⟩) :: s.hashmap ∧
    List.countP (fun p => p.1 == D)
        (runEvents s [.insertRemote D k S, .insertRemote D k S]).hashmap = 1 ∧
    (runEvents s
        [.insertRemote D k S, .insertRemote D k S]).remaining_remote_num =
      s.remaining_remote_num + 2 ∧
    (runEvents s
        [.insertRemote D k S, .insertRemote D k S]).remaining_remote_bytes =
      s.remaining_remote_bytes + (S + S) := by
  have h1 : emit_doc_edit s (.insertRemote D k S) =
      { s with
        hashmap := (D, ⟨k, S, s.table_name⟩) :: s.hashmap
        remaining_remote_num := wadd s.remaining_remote_num 1
        remaining_remote_bytes := wadd s.remaining_remote_bytes S
        queue_remote_num := wadd s.queue_remote_num 1
        queue_remote_bytes := wadd s.queue_remote_bytes S } := by
    simp [emit_doc_edit, hres, hS, hinit, alist_or_insert, hfresh]
  have hget2 : alist_get ((D, (⟨k, S, s.table_name⟩ : RemoteUpdateData))
      :: s.hashmap) D = some ⟨k, S, s.table_name⟩ := by
    simp [alist_get]
  have hrun : runEvents s [.insertRemote D k S, .insertRemote D k S] =
      emit_doc_edit (emit_doc_edit s (.insertRemote D k S))
        (.insertRemote D k S) := rfl
  have h2 : emit_doc_edit (emit_doc_edit s (.insertRemote D k S))
      (.insertRemote D k S) =
      { s with
        hashmap := (D, ⟨k, S, s.table_name⟩) :: s.hashmap
        remaining_remote_num := wadd (wadd s.remaining_remote_num 1) 1
        remaining_remote_bytes := wadd (wadd s.remaining_remote_bytes S) S
        queue_remote_num := wadd (wadd s.queue_remote_num 1) 1
        queue_remote_bytes := wadd (wadd s.queue_remote_bytes S) S } := by
    rw [h1]
    simp [emit_doc_edit, hres, hS, hinit, alist_or_insert, hget2]
  have hw1 : wadd s.remaining_remote_num 1 = s.remaining_remote_num + 1 :=
    wadd_eq_of_lt (by omega)
  have hw2 : wadd (s.remaining_remote_num + 1) 1 =
      s.remaining_remote_num + 2 := by
    rw [wadd_eq_of_lt (by omega)]
  have hw3 : wadd s.remaining_remote_bytes S = s.remaining_remote_bytes + S :=
    wadd_eq_of_lt (by omega)
  have hw4 : wadd (s.remaining_remote_bytes + S) S =
      s.remaining_remote_bytes + (S + S) := by
    rw [wadd_eq_of_lt (by omega)]
    omega
  have hcount : List.countP (fun p => p.1 == D)
      ((D, (⟨k, S, s.table_name⟩ : RemoteUpdateData)) :: s.hashmap) = 1 := by
    rw [List.countP_cons]
    simp [countP_eq_zero_of_alist_get_none s.hashmap D hfresh]
  rw [hrun, h2]
  refine ⟨rfl, hcount, ?_, ?_⟩
  · simp [hw1, hw2]
  · simp [hw3, hw4]

/-- Witness for amended C2: the concrete duplicate delivery of
`RemoteInsert{dHash, 5}` to a fresh session. -/
theorem C2_duplicate_witness :
    (runEvents (EventRemoteSync.new resourcesName)
        [.insertRemote dHash kKey 5, .insertRemote dHash kKey 5]).hashmap =
      (dHash, ⟨kKey, 5, (EventRemoteSync.new resourcesName).table_name⟩) ::
        (EventRemoteSync.new resourcesName).hashmap ∧
    List.countP (fun p => p.1 == dHash)
        (runEvents (EventRemoteSync.new resourcesName)
          [.insertRemote dHash kKey 5, .insertRemote dHash kKey 5]).hashmap
      = 1 ∧
    (runEvents (EventRemoteSync.new resourcesName)
        [.insertRemote dHash kKey 5,
          .insertRemote dHash kKey 5]).remaining_remote_num =
      (EventRemoteSync.new resourcesName).remaining_remote_num + 2 ∧
    (runEvents (EventRemoteSync.new resourcesName)
        [.insertRemote dHash kKey 5,
          .insertRemote dHash kKey 5]).remaining_remote_bytes =
      (EventRemoteSync.new resourcesName).remaining_remote_bytes + (5 + 5) :=
  C2_amended_duplicate_insert (EventRemoteSync.new resourcesName) dHash kKey 5
    (by decide) (by decide) rfl rfl (by norm_num [U64, EventRemoteSync.new])
    (by norm_num [U64, EventRemoteSync.new])

/-- Claim C3 (status: code bug): `subscribe_doc` (src/store.rs) never
stores the spawned task's `JoinHandle` in the session's `handle` field,
so for every registry-created session the `handle.is_some()` guard in the
`PendingContentReady` arm is false and the background task is aborted
zero times — not exactly once as the claim (and the spec's self-retiring
task design) require.  Delivering `AllClear` twice sets the flag and
aborts nothing. -/
theorem C3_registry_session_never_aborts :
    (runEvents (EventRemoteSync.new resourcesName)
        [.pendingContentReady, .pendingContentReady]).init_blob_successed
      = true ∧
    (runEvents (EventRemoteSync.new resourcesName)
        [.pendingContentReady]).aborts = 0 ∧
    (runEvents (EventRemoteSync.new resourcesName)
        [.pendingContentReady, .pendingContentReady]).aborts = 0 := by
  decide

/-- Claim C4, counterexample: counters can wrap around.  With
`SyncFinished` delivered first (explicitly allowed by the claim's "in any
order, including RoundComplete/SyncFinished arriving before
RemoteInsert"), a later `RemoteInsert` is indexed without incrementing
any counter, and the matching `ContentReady` then executes
`fetch_sub(1)` on `queue_remote_num = 0`, wrapping to `2^64 - 1` and
violating `queuePendingCount <= lifetimePendingCount`. -/
theorem C4_underflow_counterexample :
    (runEvents (EventRemoteSync.new resourcesName)
        [.syncFinished, .insertRemote dHash kKey 5,
          .contentReady dHash]).queue_remote_num = U64 - 1 ∧
    (runEvents (EventRemoteSync.new resourcesName)
        [.syncFinished, .insertRemote dHash kKey 5,
          .contentReady dHash]).remaining_remote_num = 0 ∧
    ¬(runEvents (EventRemoteSync.new resourcesName)
        [.syncFinished, .insertRemote dHash kKey 5,
          .contentReady dHash]).queue_remote_num ≤
      (runEvents (EventRemoteSync.new resourcesName)
        [.syncFinished, .insertRemote dHash kKey 5,
          .contentReady dHash]).remaining_remote_num := by
  refine ⟨by decide, by decide, ?_⟩
  intro hle
  have h1 : (runEvents (EventRemoteSync.new resourcesName)
      [.syncFinished, .insertRemote dHash kKey 5,
        .contentReady dHash]).queue_remote_num = U64 - 1 := by decide
  have h2 : (runEvents (EventRemoteSync.new resourcesName)
      [.syncFinished, .insertRemote dHash kKey 5,
        .contentReady dHash]).remaining_remote_num = 0 := by decide
  rw [h1, h2] at hle
  have : (0:Nat) < U64 - 1 := by norm_num [U64]
  omega

/-- `true` exactly on `InsertRemote` events. -/
def isRemoteInsert : LiveEvent → Bool
  | .insertRemote _ _ _ => true
  | _ => false

/-- Number of counter increments an event can cause (1 for a
non-tombstone `InsertRemote`, 0 otherwise). -/
def evNum : LiveEvent → Nat
  | .insertRemote _ _ S => if S = 0 then 0 else 1
  | _ => 0

/-- Number of byte-counter increments an event can cause. -/
def evBytes : LiveEvent → Nat
  | .insertRemote _ _ S => S
  | _ => 0

/-- Total possible count increments over a trace. -/
def countedNum (t : List LiveEvent) : Nat := (t.map evNum).sum

/-- Total possible byte increments over a trace. -/
def countedBytes (t : List LiveEvent) : Nat := (t.map evBytes).sum

/-- A trace in which no `InsertRemote` is delivered after a
`SyncFinished` (the restriction forced by the C4 counterexample). -/
def goodOrder : List LiveEvent → Bool
  | [] => true
  | .syncFinished :: t => t.all (fun e => !isRemoteInsert e) && goodOrder t
  | _ :: t => goodOrder t

/-- Total size of all pending-index entries. -/
def mapBytesSum (m : List (String × RemoteUpdateData)) : Nat :=
  (m.map (fun p => p.2.size)).sum

/-- The session-counter invariant: both queue counters dominate the
pending index and are dominated by the lifetime counters. -/
def CounterInv (s : EventRemoteSync) : Prop :=
  mapBytesSum s.hashmap ≤ s.queue_remote_bytes ∧
  s.hashmap.length ≤ s.queue_remote_num ∧
  s.queue_remote_num ≤ s.remaining_remote_num ∧
  s.queue_remote_bytes ≤ s.remaining_remote_bytes

/-- Removing a present key drops exactly its size from the index total
and exactly one entry from the index length. -/
theorem alist_get_some_spec (m : List (String × RemoteUpdateData))
    (k : String) (v : RemoteUpdateData) (h : alist_get m k = some v) :
    mapBytesSum m = v.size + mapBytesSum (alist_remove m k) ∧
    m.length = (alist_remove m k).length + 1 := by
  induction m with
  | nil => simp [alist_get] at h
  | cons hd tl ih =>
    obtain ⟨k', w⟩ := hd
    by_cases hk : k' = k
    · simp only [alist_get, if_pos hk, Option.some.injEq] at h
      subst h
      simp [alist_remove, hk, mapBytesSum]
    · simp only [alist_get, if_neg hk] at h
      obtain ⟨ih1, ih2⟩ := ih h
      constructor
      · simp only [mapBytesSum, List.map_cons, List.sum_cons,
          alist_remove, if_neg hk] at ih1 ⊢
        omega
      · simp only [List.length_cons, alist_remove, if_neg hk] at ih2 ⊢
        omega

/-- One-step preservation of the counter invariant, assuming the event is
not an `InsertRemote` delivered after `SyncFinished` and the lifetime
counters have headroom for this event. -/
theorem inv_step (s : EventRemoteSync) (e : LiveEvent)
    (hInv : CounterInv s)
    (hgate : isRemoteInsert e = true → s.init_successed = false)
    (hnum : s.remaining_remote_num + evNum e < U64)
    (hbytes : s.remaining_remote_bytes + evBytes e < U64) :
    CounterInv (emit_doc_edit s e) ∧
    (emit_doc_edit s e).remaining_remote_num ≤
      s.remaining_remote_num + evNum e ∧
    (emit_doc_edit s e).remaining_remote_bytes ≤
      s.remaining_remote_bytes + evBytes e ∧
    ((emit_doc_edit s e).init_successed = true →
      s.init_successed = true ∨ e = .syncFinished) := by
  obtain ⟨hI1, hI2, hI3, hI4⟩ := hInv
  cases e with
  | insertRemote D k S =>
    have hinit : s.init_successed = false := hgate rfl
    by_cases hres : s.table_name = resourceName
    · have hemit : emit_doc_edit s (.insertRemote D k S) = s := by
        simp [emit_doc_edit, hres]
      rw [hemit]
      exact ⟨⟨hI1, hI2, hI3, hI4⟩, by omega, by omega, fun hh => Or.inl hh⟩
    · by_cases hS : S = 0
      · have hemit : emit_doc_edit s (.insertRemote D k S) = s := by
          simp [emit_doc_edit, hres, hS]
        rw [hemit]
        exact ⟨⟨hI1, hI2, hI3, hI4⟩, by omega, by omega, fun hh => Or.inl hh⟩
      · have hev : evNum (.insertRemote D k S) = 1 := by simp [evNum, hS]
        have hevb : evBytes (.insertRemote D k S) = S := rfl
        rw [hev] at hnum
        rw [hevb] at hbytes
        have hemit : emit_doc_edit s (.insertRemote D k S) =
            { s with
              hashmap := alist_or_insert s.hashmap D ⟨k, S, s.table_name⟩
              remaining_remote_num := wadd s.remaining_remote_num 1
              remaining_remote_bytes := wadd s.remaining_remote_bytes S
              queue_remote_num := wadd s.queue_remote_num 1
              queue_remote_bytes := wadd s.queue_remote_bytes S } := by
          simp [emit_doc_edit, hres, hS, hinit]
        have hw1 : wadd s.remaining_remote_num 1 =
            s.remaining_remote_num + 1 := wadd_eq_of_lt (by omega)
        have hw2 : wadd s.queue_remote_num 1 = s.queue_remote_num + 1 :=
          wadd_eq_of_lt (by omega)
        have hw3 : wadd s.remaining_remote_bytes S =
            s.remaining_remote_bytes + S := wadd_eq_of_lt (by omega)
        have hw4 : wadd s.queue_remote_bytes S = s.queue_remote_bytes + S :=
          wadd_eq_of_lt (by omega)
        have hmap_len :
            (alist_or_insert s.hashmap D ⟨k, S, s.table_name⟩).length ≤
              s.hashmap.length + 1 := by
          unfold alist_or_insert
          cases alist_get s.hashmap D <;> simp
        have hmap_bytes :
            mapBytesSum (alist_or_insert s.hashmap D ⟨k, S, s.table_name⟩) ≤
              mapBytesSum s.hashmap + S := by
          unfold alist_or_insert
          cases alist_get s.hashmap D <;> simp [mapBytesSum] <;> omega
        rw [hemit]
        refine ⟨⟨?_, ?_, ?_, ?_⟩, ?_, ?_, ?_⟩ <;>
          simp only [CounterInv, hw1, hw2, hw3, hw4]
        · omega
        · omega
        · omega
        · omega
        · omega
        · omega
        · intro hh
          exact Or.inl hh
  | insertLocal =>
    have hemit : emit_doc_edit s .insertLocal = s := rfl
    rw [hemit]
    exact ⟨⟨hI1, hI2, hI3, hI4⟩, by omega, by omega, fun hh => Or.inl hh⟩
  | contentReady h =>
    have hev : evNum (.contentReady h) = 0 := rfl
    have hevb : evBytes (.contentReady h) = 0 := rfl
    rw [hev] at hnum
    rw [hevb] at hbytes
    cases hget : alist_get s.hashmap h with
    | none =>
      have hemit : emit_doc_edit s (.contentReady h) = s := by
        simp [emit_doc_edit, hget]
      rw [hemit]
      exact ⟨⟨hI1, hI2, hI3, hI4⟩, by omega, by omega, fun hh => Or.inl hh⟩
    | some rud =>
      obtain ⟨hbs, hlen⟩ := alist_get_some_spec s.hashmap h rud hget
      by_cases hblob : s.init_blob_successed = false
      · have hemit : emit_doc_edit s (.contentReady h) =
            { s with
              hashmap := alist_remove s.hashmap h
              tx_sent := s.tx_sent ++ [rud.key]
              queue_remote_num := wsub s.queue_remote_num 1
              queue_remote_bytes := wsub s.queue_remote_bytes rud.size } := by
          simp [emit_doc_edit, hget, hblob]
        have h1le : 1 ≤ s.queue_remote_num := by omega
        have hsz : rud.size ≤ s.queue_remote_bytes := by omega
        have hws1 : wsub s.queue_remote_num 1 = s.queue_remote_num - 1 :=
          wsub_eq_of_le h1le (by omega)
        have hws2 : wsub s.queue_remote_bytes rud.size =
            s.queue_remote_bytes - rud.size := wsub_eq_of_le hsz (by omega)
        rw [hemit]
        refine ⟨⟨?_, ?_, ?_, ?_⟩, ?_, ?_, ?_⟩ <;>
          simp only [CounterInv, hws1, hws2]
        · omega
        · omega
        · omega
        · omega
        · omega
        · omega
        · intro hh
          exact Or.inl hh
      · have hbt : s.init_blob_successed = true := by
          cases hb : s.init_blob_successed
          · exact absurd hb hblob
          · rfl
        have hemit : emit_doc_edit s (.contentReady h) =
            { s with hashmap := alist_remove s.hashmap h } := by
          simp [emit_doc_edit, hget, hbt]
        rw [hemit]
        refine ⟨⟨?_, ?_, ?_, ?_⟩, ?_, ?_, ?_⟩ <;> simp only [CounterInv]
        · omega
        · omega
        · omega
        · omega
        · omega
        · omega
        · intro hh
          exact Or.inl hh
  | pendingContentReady =>
    by_cases hh : s.handle
    · have hemit : emit_doc_edit s .pendingContentReady =
          { s with
            init_blob_successed := true
            handle := false
            aborts := s.aborts + 1 } := by
        simp [emit_doc_edit, hh]
      rw [hemit]
      exact ⟨⟨hI1, hI2, hI3, hI4⟩, by simp [evNum], by simp [evBytes],
        fun hq => Or.inl hq⟩
    · have hemit : emit_doc_edit s .pendingContentReady =
          { s with init_blob_successed := true } := by
        simp [emit_doc_edit, hh]
      rw [hemit]
      exact ⟨⟨hI1, hI2, hI3, hI4⟩, by simp [evNum], by simp [evBytes],
        fun hq => Or.inl hq⟩
  | neighborUp =>
    have hemit : emit_doc_edit s .neighborUp = s := rfl
    rw [hemit]
    exact ⟨⟨hI1, hI2, hI3, hI4⟩, by omega, by omega, fun hh => Or.inl hh⟩
  | neighborDown =>
    have hemit : emit_doc_edit s .neighborDown = s := rfl
    rw [hemit]
    exact ⟨⟨hI1, hI2, hI3, hI4⟩, by omega, by omega, fun hh => Or.inl hh⟩
  | syncFinished =>
    have hemit : emit_doc_edit s .syncFinished =
        { s with init_successed := true } := rfl
    rw [hemit]
    exact ⟨⟨hI1, hI2, hI3, hI4⟩, by simp [evNum], by simp [evBytes],
      fun _ => Or.inr rfl⟩

/-- `countedNum` distributes over trace concatenation. -/
theorem countedNum_append (t1 t2 : List LiveEvent) :
    countedNum (t1 ++ t2) = countedNum t1 + countedNum t2 := by
  simp [countedNum]

/-- `countedBytes` distributes over trace concatenation. -/
theorem countedBytes_append (t1 t2 : List LiveEvent) :
    countedBytes (t1 ++ t2) = countedBytes t1 + countedBytes t2 := by
  simp [countedBytes]

/-- A prefix of an insert-before-sync-ordered trace is itself ordered. -/
theorem goodOrder_append_left (t1 t2 : List LiveEvent)
    (h : goodOrder (t1 ++ t2) = true) : goodOrder t1 = true := by
  induction t1 with
  | nil => rfl
  | cons e t ih =>
    cases e with
    | syncFinished =>
      simp only [List.cons_append, goodOrder, Bool.and_eq_true] at h
      obtain ⟨hall, hg⟩ := h
      have ha : t.all (fun e => !isRemoteInsert e) = true := by
        simp only [List.append_eq] at hall
        rw [List.all_append, Bool.and_eq_true] at hall
        exact hall.1
      simp only [goodOrder, Bool.and_eq_true]
      exact ⟨ha, ih hg⟩
    | insertRemote D k S => exact ih h
    | insertLocal => exact ih h
    | contentReady hh => exact ih h
    | pendingContentReady => exact ih h
    | neighborUp => exact ih h
    | neighborDown => exact ih h

/-- The tail of an ordered trace is ordered. -/
theorem goodOrder_tail (e : LiveEvent) (t : List LiveEvent)
    (h : goodOrder (e :: t) = true) : goodOrder t = true := by
  cases e with
  | syncFinished =>
    simp only [goodOrder, Bool.and_eq_true] at h
    exact h.2
  | insertRemote D k S => exact h
  | insertLocal => exact h
  | contentReady hh => exact h
  | pendingContentReady => exact h
  | neighborUp => exact h
  | neighborDown => exact h

/-- Multi-step preservation of the counter invariant along an ordered
trace whose potential counter increments fit in a `u64`. -/
theorem inv_run (t : List LiveEvent) : ∀ s : EventRemoteSync,
    CounterInv s →
    (s.init_successed = true →
      t.all (fun e => !isRemoteInsert e) = true) →
    goodOrder t = true →
    s.remaining_remote_num + countedNum t < U64 →
    s.remaining_remote_bytes + countedBytes t < U64 →
    CounterInv (runEvents s t) ∧
    (runEvents s t).remaining_remote_num ≤
      s.remaining_remote_num + countedNum t ∧
    (runEvents s t).remaining_remote_bytes ≤
      s.remaining_remote_bytes + countedBytes t := by
  induction t with
  | nil =>
    intro s hInv _ _ _ _
    exact ⟨hInv, by simp [runEvents, countedNum], by
      simp [runEvents, countedBytes]⟩
  | cons e t ih =>
    intro s hInv hgate hord hnum hbytes
    have hcn : countedNum (e :: t) = evNum e + countedNum t := by
      simp [countedNum]
    have hcb : countedBytes (e :: t) = evBytes e + countedBytes t := by
      simp [countedBytes]
    rw [hcn] at hnum
    rw [hcb] at hbytes
    have hg : isRemoteInsert e = true → s.init_successed = false := by
      intro hie
      cases hinit : s.init_successed with
      | false => rfl
      | true =>
        have hall := hgate hinit
        simp only [List.all_cons, Bool.and_eq_true] at hall
        rw [hie] at hall
        simp at hall
    have hstep := inv_step s e hInv hg (by omega) (by omega)
    obtain ⟨hInv', hle1, hle2, hinitc⟩ := hstep
    have hgate' : (emit_doc_edit s e).init_successed = true →
        t.all (fun x => !isRemoteInsert x) = true := by
      intro htrue
      rcases hinitc htrue with hs | he
      · have hall := hgate hs
        simp only [List.all_cons, Bool.and_eq_true] at hall
        exact hall.2
      · subst he
        simp only [goodOrder, Bool.and_eq_true] at hord
        exact hord.1
    have hord' : goodOrder t = true := goodOrder_tail e t hord
    have hrun : runEvents s (e :: t) = runEvents (emit_doc_edit s e) t := rfl
    rw [hrun]
    have hres := ih (emit_doc_edit s e) hInv' hgate' hord'
      (by omega) (by omega)
    obtain ⟨hA, hB, hC⟩ := hres
    exact ⟨hA, by omega, by omega⟩

/-- Claim C4 (amended): on traces where no `RemoteInsert` follows
`RoundComplete`/`SyncFinished` and whose potential counter increments
stay below 2^64 (so no `u64` overflow can occur), after every event
the counters are consistent non-negative values with no wrap-around:
the pending index is dominated by the queue counters, the queue counters
never exceed the lifetime counters, and the lifetime counters never
exceed the true totals of pending inserts observed so far. -/
theorem C4_amended_invariant (name : String) (t t1 t2 : List LiveEvent)
    (hsplit : t = t1 ++ t2)
    (hord : goodOrder t = true)
    (hnum : countedNum t < U64) (hbytes : countedBytes t < U64) :
    mapBytesSum (runEvents (EventRemoteSync.new name) t1).hashmap ≤
      (runEvents (EventRemoteSync.new name) t1).queue_remote_bytes ∧
    (runEvents (EventRemoteSync.new name) t1).hashmap.length ≤
      (runEvents (EventRemoteSync.new name) t1).queue_remote_num ∧
    (runEvents (EventRemoteSync.new name) t1).queue_remote_num ≤
      (runEvents (EventRemoteSync.new name) t1).remaining_remote_num ∧
    (runEvents (EventRemoteSync.new name) t1).queue_remote_bytes ≤
      (runEvents (EventRemoteSync.new name) t1).remaining_remote_bytes ∧
    (runEvents (EventRemoteSync.new name) t1).remaining_remote_num ≤
      countedNum t1 ∧
    (runEvents (EventRemoteSync.new name) t1).remaining_remote_bytes ≤
      countedBytes t1 := by
  subst hsplit
  have hord1 : goodOrder t1 = true := goodOrder_append_left t1 t2 hord
  have hn1 : countedNum t1 ≤ countedNum (t1 ++ t2) := by
    rw [countedNum_append]
    omega
  have hb1 : countedBytes t1 ≤ countedBytes (t1 ++ t2) := by
    rw [countedBytes_append]
    omega
  have hInv0 : CounterInv (EventRemoteSync.new name) := by
    refine ⟨?_, ?_, ?_, ?_⟩ <;> simp [EventRemoteSync.new, mapBytesSum]
  have hgate0 : (EventRemoteSync.new name).init_successed = true →
      t1.all (fun e => !isRemoteInsert e) = true := by
    intro hfalse
    simp [EventRemoteSync.new] at hfalse
  have hres := inv_run t1 (EventRemoteSync.new name) hInv0 hgate0 hord1
    (by simp [EventRemoteSync.new]; omega) (by simp [EventRemoteSync.new]; omega)
  obtain ⟨⟨h1, h2, h3, h4⟩, h5, h6⟩ := hres
  have hz1 : (EventRemoteSync.new name).remaining_remote_num = 0 := rfl
  have hz2 : (EventRemoteSync.new name).remaining_remote_bytes = 0 := rfl
  rw [hz1] at h5
  rw [hz2] at h6
  exact ⟨h1, h2, h3, h4, by omega, by omega⟩

/-- Witness for amended C4 on the concrete end-to-end trace from the
spec's scenario, checked after its two-event prefix. -/
theorem C4_invariant_witness :
    mapBytesSum (runEvents (EventRemoteSync.new resourcesName)
        [.insertRemote dHash kKey 5, .contentReady dHash]).hashmap ≤
      (runEvents (EventRemoteSync.new resourcesName)
        [.insertRemote dHash kKey 5, .contentReady dHash]).queue_remote_bytes ∧
    (runEvents (EventRemoteSync.new resourcesName)
        [.insertRemote dHash kKey 5, .contentReady dHash]).hashmap.length ≤
      (runEvents (EventRemoteSync.new resourcesName)
        [.insertRemote dHash kKey 5, .contentReady dHash]).queue_remote_num ∧
    (runEvents (EventRemoteSync.new resourcesName)
        [.insertRemote dHash kKey 5, .contentReady dHash]).queue_remote_num ≤
      (runEvents (EventRemoteSync.new resourcesName)
        [.insertRemote dHash kKey 5,
          .contentReady dHash]).remaining_remote_num ∧
    (runEvents (EventRemoteSync.new resourcesName)
        [.insertRemote dHash kKey 5, .contentReady dHash]).queue_remote_bytes ≤
      (runEvents (EventRemoteSync.new resourcesName)
        [.insertRemote dHash kKey 5,
          .contentReady dHash]).remaining_remote_bytes ∧
    (runEvents (EventRemoteSync.new resourcesName)
        [.insertRemote dHash kKey 5,
          .contentReady dHash]).remaining_remote_num ≤
      countedNum [.insertRemote dHash kKey 5, .contentReady dHash] ∧
    (runEvents (EventRemoteSync.new resourcesName)
        [.insertRemote dHash kKey 5,
          .contentReady dHash]).remaining_remote_bytes ≤
      countedBytes [.insertRemote dHash kKey 5, .contentReady dHash] :=
  C4_amended_invariant resourcesName
    [.insertRemote dHash kKey 5, .contentReady dHash, .pendingContentReady]
    [.insertRemote dHash kKey 5, .contentReady dHash]
    [.pendingContentReady] rfl (by decide) (by decide) (by decide)

/-- Claim C5, counterexample: a `RemoteInsert{D,S}` / `ContentReady{D}`
pair delivered before `AllClear` need not decrement `queuePendingCount`
by 1: if `SyncFinished` precedes the insert (still before `AllClear`),
the insert is indexed without counting, and the resolution wraps the
queue counters from 0 to `2^64 - 1` / `2^64 - 5` instead of decreasing
them by 1 / S. -/
theorem C5_sync_before_insert_counterexample :
    (runEvents (EventRemoteSync.new resourcesName)
        [.syncFinished, .insertRemote dHash kKey 5]).init_blob_successed
      = false ∧
    (runEvents (EventRemoteSync.new resourcesName)
        [.syncFinished, .insertRemote dHash kKey 5]).queue_remote_num = 0 ∧
    (runEvents (EventRemoteSync.new resourcesName)
        [.syncFinished, .insertRemote dHash kKey 5]).queue_remote_bytes
      = 0 ∧
    (runEvents (EventRemoteSync.new resourcesName)
        [.syncFinished, .insertRemote dHash kKey 5,
          .contentReady dHash]).queue_remote_num = U64 - 1 ∧
    (runEvents (EventRemoteSync.new resourcesName)
        [.syncFinished, .insertRemote dHash kKey 5,
          .contentReady dHash]).queue_remote_bytes = U64 - 5 := by
  decide

/-- Claim C5 (amended): for a fresh digest `D` on a non-excluded table,
with the pair delivered before `SyncFinished` and before `AllClear` (and
no `u64` overflow), the `ContentReady` removes `D` from the pending
index, pushes the logical key to the notification channel, and decrements
`queuePendingCount` by exactly 1 and `queuePendingBytes` by exactly `S` —
exactly once: a repeated `ContentReady{D}` is a complete no-op.  The net
effect of the pair on the queue counters is zero. -/
theorem C5_amended_exact_decrement (s : EventRemoteSync) (D k : String)
    (S : Nat)
    (hres : ¬s.table_name = resourceName) (hS : ¬S = 0)
    (hfresh : alist_get s.hashmap D = none)
    (hinit : s.init_successed = false)
    (hblob : s.init_blob_successed = false)
    (hqn : s.queue_remote_num + 1 < U64)
    (hqb : s.queue_remote_bytes + S < U64) :
    alist_get (emit_doc_edit (emit_doc_edit s (.insertRemote D k S))
        (.contentReady D)).hashmap D = none ∧
    (emit_doc_edit (emit_doc_edit s (.insertRemote D k S))
        (.contentReady D)).tx_sent = s.tx_sent ++ [k] ∧
    (emit_doc_edit s (.insertRemote D k S)).queue_remote_num =
      s.queue_remote_num + 1 ∧
    (emit_doc_edit s (.insertRemote D k S)).queue_remote_bytes =
      s.queue_remote_bytes + S ∧
    (emit_doc_edit (emit_doc_edit s (.insertRemote D k S))
        (.contentReady D)).queue_remote_num =
      (emit_doc_edit s (.insertRemote D k S)).queue_remote_num - 1 ∧
    (emit_doc_edit (emit_doc_edit s (.insertRemote D k S))
        (.contentReady D)).queue_remote_bytes =
      (emit_doc_edit s (.insertRemote D k S)).queue_remote_bytes - S ∧
    (emit_doc_edit (emit_doc_edit s (.insertRemote D k S))
        (.contentReady D)).queue_remote_num = s.queue_remote_num ∧
    (emit_doc_edit (emit_doc_edit s (.insertRemote D k S))
        (.contentReady D)).queue_remote_bytes = s.queue_remote_bytes ∧
    emit_doc_edit (emit_doc_edit (emit_doc_edit s (.insertRemote D k S))
        (.contentReady D)) (.contentReady D) =
      emit_doc_edit (emit_doc_edit s (.insertRemote D k S))
        (.contentReady D) := by
  have h1 : emit_doc_edit s (.insertRemote D k S) =
      { s with
        hashmap := (D, ⟨k, S, s.table_name⟩) :: s.hashmap
        remaining_remote_num := wadd s.remaining_remote_num 1
        remaining_remote_bytes := wadd s.remaining_remote_bytes S
        queue_remote_num := wadd s.queue_remote_num 1
        queue_remote_bytes := wadd s.queue_remote_bytes S } := by
    simp [emit_doc_edit, hres, hS, hinit, alist_or_insert, hfresh]
  have hget : alist_get ((D, (⟨k, S, s.table_name⟩ : RemoteUpdateData))
      :: s.hashmap) D = some ⟨k, S, s.table_name⟩ := by
    simp [alist_get]
  have hrem : alist_remove ((D, (⟨k, S, s.table_name⟩ : RemoteUpdateData))
      :: s.hashmap) D = s.hashmap := by
    simp [alist_remove]
  have h2 : emit_doc_edit (emit_doc_edit s (.insertRemote D k S))
      (.contentReady D) =
      { s with
        tx_sent := s.tx_sent ++ [k]
        remaining_remote_num := wadd s.remaining_remote_num 1
        remaining_remote_bytes := wadd s.remaining_remote_bytes S
        queue_remote_num := wsub (wadd s.queue_remote_num 1) 1
        queue_remote_bytes := wsub (wadd s.queue_remote_bytes S) S } := by
    rw [h1]
    simp [emit_doc_edit, hget, hrem, hblob]
  have hw1 : wadd s.queue_remote_num 1 = s.queue_remote_num + 1 :=
    wadd_eq_of_lt (by omega)
  have hw2 : wadd s.queue_remote_bytes S = s.queue_remote_bytes + S :=
    wadd_eq_of_lt (by omega)
  have hs1 : wsub (wadd s.queue_remote_num 1) 1 = s.queue_remote_num := by
    rw [hw1, wsub_eq_of_le (by omega) (by omega)]
    omega
  have hs2 : wsub (wadd s.queue_remote_bytes S) S = s.queue_remote_bytes := by
    rw [hw2, wsub_eq_of_le (by omega) (by omega)]
    omega
  have hs1' : wsub (s.queue_remote_num + 1) 1 = s.queue_remote_num := by
    rw [wsub_eq_of_le (by omega) (by omega)]
    omega
  have hs2' : wsub (s.queue_remote_bytes + S) S = s.queue_remote_bytes := by
    rw [wsub_eq_of_le (by omega) (by omega)]
    omega
  rw [h2, h1]
  refine ⟨hfresh, rfl, hw1, hw2, ?_, ?_, hs1, hs2, ?_⟩
  · simp only [hw1, hs1']
    omega
  · simp only [hw2, hs2']
    omega
  · simp [emit_doc_edit, hfresh]

/-- Witness for amended C5: the concrete insert/resolve pair on a fresh
session. -/
theorem C5_exact_decrement_witness :
    alist_get (emit_doc_edit (emit_doc_edit (EventRemoteSync.new
        resourcesName) (.insertRemote dHash kKey 5))
        (.contentReady dHash)).hashmap dHash = none ∧
    (emit_doc_edit (emit_doc_edit (EventRemoteSync.new resourcesName)
        (.insertRemote dHash kKey 5)) (.contentReady dHash)).tx_sent =
      (EventRemoteSync.new resourcesName).tx_sent ++ [kKey] ∧
    (emit_doc_edit (EventRemoteSync.new resourcesName)
        (.insertRemote dHash kKey 5)).queue_remote_num =
      (EventRemoteSync.new resourcesName).queue_remote_num + 1 ∧
    (emit_doc_edit (EventRemoteSync.new resourcesName)
        (.insertRemote dHash kKey 5)).queue_remote_bytes =
      (EventRemoteSync.new resourcesName).queue_remote_bytes + 5 ∧
    (emit_doc_edit (emit_doc_edit (EventRemoteSync.new resourcesName)
        (.insertRemote dHash kKey 5)) (.contentReady dHash)).queue_remote_num =
      (emit_doc_edit (EventRemoteSync.new resourcesName)
        (.insertRemote dHash kKey 5)).queue_remote_num - 1 ∧
    (emit_doc_edit (emit_doc_edit (EventRemoteSync.new resourcesName)
        (.insertRemote dHash kKey 5))
        (.contentReady dHash)).queue_remote_bytes =
      (emit_doc_edit (EventRemoteSync.new resourcesName)
        (.insertRemote dHash kKey 5)).queue_remote_bytes - 5 ∧
    (emit_doc_edit (emit_doc_edit (EventRemoteSync.new resourcesName)
        (.insertRemote dHash kKey 5)) (.contentReady dHash)).queue_remote_num =
      (EventRemoteSync.new resourcesName).queue_remote_num ∧
    (emit_doc_edit (emit_doc_edit (EventRemoteSync.new resourcesName)
        (.insertRemote dHash kKey 5))
        (.contentReady dHash)).queue_remote_bytes =
      (EventRemoteSync.new resourcesName).queue_remote_bytes ∧
    emit_doc_edit (emit_doc_edit (emit_doc_edit (EventRemoteSync.new
        resourcesName) (.insertRemote dHash kKey 5)) (.contentReady dHash))
        (.contentReady dHash) =
      emit_doc_edit (emit_doc_edit (EventRemoteSync.new resourcesName)
        (.insertRemote dHash kKey 5)) (.contentReady dHash) :=
  C5_amended_exact_decrement (EventRemoteSync.new resourcesName) dHash kKey 5
    (by decide) (by decide) rfl rfl rfl (by decide) (by decide)

/-- A document log entry as consumed by `search`/`bytes_from_entry`
(src/store.rs): raw key bytes and the content hash of its payload. -/
structure Entry where
  key : List Nat
  content_hash : Nat
deriving DecidableEq

/-- Failure modes of `bytes_from_entry`: the `context("invalid key")`
error from `String::from_utf8`, and a `bincode` deserialization error
from `from_bytes`. -/
inductive SearchError where
  | keyDecode
  | entityDecode
deriving DecidableEq

/-- The external collaborators of the entity facade, abstracted as
functions: `decode_utf8` models `String::from_utf8`, `get_bytes` the
blob store's `blobs().get_bytes` (`none` = retrieval failure),
`from_bytes` the `bincode` deserializer of the `ToBytes` contract, and
`missing_file` the trait's placeholder constructor. -/
structure FacadeModel (Entity : Type) where
  decode_utf8 : List Nat → Option String
  get_bytes : Nat → Option (List Nat)
  from_bytes : List Nat → Option Entity
  missing_file : String → Entity

/-- `IrohCls::bytes_from_entry` (src/store.rs lines 116-130): decode the
key (error fails the call), then resolve the content hash; a store
failure yields `missing_file(id)` instead of an error. -/
def bytes_from_entry {E : Type} (M : FacadeModel E) (entry : Entry) :
    Except SearchError E :=
  match M.decode_utf8 entry.key with
  | none => .error .keyDecode
  | some id =>
    match M.get_bytes entry.content_hash with
    | some b =>
      match M.from_bytes b with
      | some x => .ok x
      | none => .error .entityDecode
    | none => .ok (M.missing_file id)

/-- `IrohCls::search` (src/store.rs lines 101-114): iterate the collected
entry results with `while let Some(Ok(entry))` — an `Err` item (modelled
as `Except.error ()`) ends the loop, returning the entities collected so
far; a `bytes_from_entry` error aborts the whole call. -/
def search {E : Type} (M : FacadeModel E) :
    List (Except Unit Entry) → Except SearchError (List E)
  | [] => .ok []
  | .error _ :: _ => .ok []
  | .ok entry :: rest =>
    match bytes_from_entry M entry with
    | .error err => .error err
    | .ok x =>
      match search M rest with
      | .error err => .error err
      | .ok xs => .ok (x :: xs)

/-- A prefix of entries that all resolve cleanly contributes a fixed
block of results, whatever follows it in the stream. -/
theorem search_all_ok {E : Type} (M : FacadeModel E) (l1 : List Entry)
    (h1 : ∀ e ∈ l1, (bytes_from_entry M e).isOk = true) :
    ∃ r1 : List E, r1.length = l1.length ∧
      ∀ rest, search M (l1.map Except.ok ++ rest) =
        (search M rest).map (fun xs => r1 ++ xs) := by
  induction l1 with
  | nil =>
    refine ⟨[], rfl, ?_⟩
    intro rest
    cases hrest : search M rest <;> simp [Except.map, hrest]
  | cons e t ih =>
    have he : (bytes_from_entry M e).isOk = true := h1 e (by simp)
    obtain ⟨x, hx⟩ : ∃ x, bytes_from_entry M e = .ok x := by
      cases hbe : bytes_from_entry M e with
      | error err => rw [hbe] at he; simp [Except.isOk, Except.toBool] at he
      | ok x => exact ⟨x, rfl⟩
    obtain ⟨r1, hlen, hs⟩ := ih (fun y hy => h1 y (by simp [hy]))
    refine ⟨x :: r1, by simp [hlen], ?_⟩
    intro rest
    have hcons : search M ((e :: t).map Except.ok ++ rest) =
        match search M (t.map Except.ok ++ rest) with
        | .error err => .error err
        | .ok xs => .ok (x :: xs) := by
      simp only [List.map_cons, List.cons_append, search, hx,
        List.append_eq]
    rw [hcons, hs rest]
    cases hrest : search M rest <;> simp [Except.map]

/-- Claim C7: in `search()`, a store-resolution failure for one entry
substitutes `missing_file(key)` for that entry only, while the call still
succeeds and returns the other entries' results in place; a key that
fails UTF-8 decoding fails the whole call with the decoding error. -/
theorem C7_search_error_handling {E : Type} (M : FacadeModel E)
    (l1 l2 : List Entry) (ea eb : Entry) (k : String)
    (h1 : ∀ e ∈ l1, (bytes_from_entry M e).isOk = true)
    (h2 : ∀ e ∈ l2, (bytes_from_entry M e).isOk = true)
    (hka : M.decode_utf8 ea.key = some k)
    (hres : M.get_bytes ea.content_hash = none)
    (hkb : M.decode_utf8 eb.key = none) :
    (∃ r1 r2 : List E, r1.length = l1.length ∧ r2.length = l2.length ∧
      search M ((l1 ++ ea :: l2).map Except.ok) =
        .ok (r1 ++ M.missing_file k :: r2)) ∧
    (∀ rest, search M (l1.map Except.ok ++ Except.ok eb :: rest) =
      .error .keyDecode) := by
  have hbe_a : bytes_from_entry M ea = .ok (M.missing_file k) := by
    simp [bytes_from_entry, hka, hres]
  have hbe_b : bytes_from_entry M eb = .error .keyDecode := by
    simp [bytes_from_entry, hkb]
  obtain ⟨r1, hlen1, hs1⟩ := search_all_ok M l1 h1
  obtain ⟨r2, hlen2, hs2⟩ := search_all_ok M l2 h2
  constructor
  · refine ⟨r1, r2, hlen1, hlen2, ?_⟩
    have htail : search M (l2.map Except.ok) = .ok r2 := by
      have := hs2 []
      simpa [search, Except.map] using this
    have hmid : search M (Except.ok ea :: l2.map Except.ok) =
        .ok (M.missing_file k :: r2) := by
      simp only [search, hbe_a, htail]
    have hsplit : ((l1 ++ ea :: l2).map Except.ok : List (Except Unit Entry))
        = l1.map Except.ok ++ Except.ok ea :: l2.map Except.ok := by
      simp
    rw [hsplit, hs1 (Except.ok ea :: l2.map Except.ok), hmid]
    simp [Except.map]
  · intro rest
    have hmid : search M (Except.ok eb :: rest) =
        .error SearchError.keyDecode := by
      simp only [search, hbe_b]
    rw [hs1 (Except.ok eb :: rest), hmid]
    simp [Except.map]

/-- Claim C9: if the entry stream yields an `Err` item, `search()` stops
there and returns `Ok` with exactly the entities collected before it; the
result does not depend on anything after the error item. -/
theorem C9_stream_error_truncates {E : Type} (M : FacadeModel E)
    (l1 : List Entry)
    (h1 : ∀ e ∈ l1, (bytes_from_entry M e).isOk = true) :
    ∃ r1 : List E, r1.length = l1.length ∧
      ∀ rest, search M (l1.map Except.ok ++ Except.error () :: rest) =
        .ok r1 := by
  obtain ⟨r1, hlen, hs⟩ := search_all_ok M l1 h1
  refine ⟨r1, hlen, ?_⟩
  intro rest
  have hmid : search M (Except.error () :: rest) = .ok ([] : List E) := rfl
  rw [hs (Except.error () :: rest), hmid]
  simp [Except.map]

/-- A concrete facade instantiation for witnesses: entities are strings,
key byte 107 decodes to `kKey`, hash 1 resolves to a deserializable
payload, and the placeholder is the key itself. -/
def testFacade : FacadeModel String where
  decode_utf8 := fun bytes => if bytes = [107] then some kKey else none
  get_bytes := fun h => if h = 1 then some [42] else none
  from_bytes := fun b => if b = [42] then some kKey else none
  missing_file := fun id => id

/-- An entry that decodes and resolves cleanly under `testFacade`. -/
def eOk : Entry := ⟨[107], 1⟩

/-- An entry whose key decodes but whose content the store cannot
produce under `testFacade`. -/
def eMissing : Entry := ⟨[107], 2⟩

/-- An entry whose key is not valid UTF-8 under `testFacade`. -/
def eBadKey : Entry := ⟨[9], 1⟩

/-- Witness for C7 on the concrete facade: one resolvable entry on each
side of a store-miss entry, and a bad-key entry after a resolvable one. -/
theorem C7_search_witness :
    (∃ r1 r2 : List String, r1.length = [eOk].length ∧
      r2.length = [eOk].length ∧
      search testFacade (([eOk] ++ eMissing :: [eOk]).map Except.ok) =
        .ok (r1 ++ testFacade.missing_file kKey :: r2)) ∧
    (∀ rest, search testFacade
        ([eOk].map Except.ok ++ Except.ok eBadKey :: rest) =
      .error .keyDecode) :=
  C7_search_error_handling testFacade [eOk] [eOk] eMissing eBadKey kKey
    (by decide) (by decide) (by decide) (by decide) (by decide)

/-- Witness for C9 on the concrete facade: one clean entry followed by a
stream error truncates the result to that entry, whatever follows. -/
theorem C9_stream_error_witness :
    ∃ r1 : List String, r1.length = [eOk].length ∧
      ∀ rest, search testFacade
          ([eOk].map Except.ok ++ Except.error () :: rest) = .ok r1 :=
  C9_stream_error_truncates testFacade [eOk] (by decide)

/-- `MAX_FILE_SIZE` (src/store.rs line 23): 150 * 1024 * 1024 bytes. -/
def MAX_FILE_SIZE : Nat := 150 * 1024 * 1024

/-- The single error `as_bytes` can produce (the `ensure!` failure). -/
inductive StoreErr where
  | sizeLimit
deriving DecidableEq

/-- `ToBytes::as_bytes` (src/store.rs lines 42-47) applied to the
already-serialized buffer: `ensure!(buf.len() < MAX_FILE_SIZE)` bails out
exactly when the length is not strictly below the maximum. -/
def as_bytes (buf : List Nat) : Except StoreErr (List Nat) :=
  if buf.length < MAX_FILE_SIZE then .ok buf else .error .sizeLimit

/-- The replicated document, reduced to its entry log. -/
structure Doc where
  entries : List (String × List Nat)
deriving DecidableEq

/-- `Doc::set_bytes` via `insert_bytes` (src/store.rs lines 94-99):
appends a new revision for the key. -/
def set_bytes (d : Doc) (key : String) (content : List Nat) : Doc :=
  ⟨d.entries ++ [(key, content)]⟩

/-- `Resources::add_file` (src/model/resource.rs lines 86-97) applied to
the serialized resource: `as_bytes` runs first and its error aborts the
call before `insert_bytes` touches the document. -/
def add_file (d : Doc) (file_id : String) (serialized : List Nat) :
    Except StoreErr Doc :=
  match as_bytes serialized with
  | .error e => .error e
  | .ok b => .ok (set_bytes d file_id b)

/-- A too-large serialized buffer makes `add_file` fail with the size
error, with no document write. -/
theorem add_file_len_ge (d : Doc) (fid : String) (buf : List Nat)
    (h : MAX_FILE_SIZE ≤ buf.length) :
    add_file d fid buf = .error .sizeLimit := by
  unfold add_file as_bytes
  rw [if_neg (Nat.not_lt.mpr h)]

/-- A strictly-below-limit buffer passes `as_bytes` unchanged and is
written to the document. -/
theorem add_file_len_lt (d : Doc) (fid : String) (buf : List Nat)
    (h : buf.length < MAX_FILE_SIZE) :
    add_file d fid buf = .ok (set_bytes d fid buf) := by
  unfold add_file as_bytes
  rw [if_pos h]

/-- Claim C8, counterexample: a serialized entity of exactly 150 MiB does
not exceed the fixed maximum, yet the insert fails — the guard is
`len < MAX_FILE_SIZE`, so the boundary value is rejected and the claim's
"if the size is within the limit the write proceeds" fails at
`buf.length = MAX_FILE_SIZE`. -/
theorem C8_boundary_counterexample :
    (List.replicate MAX_FILE_SIZE 0).length = MAX_FILE_SIZE ∧
    add_file ⟨[]⟩ kKey (List.replicate MAX_FILE_SIZE 0) =
      .error .sizeLimit := by
  constructor
  · exact List.length_replicate _ _
  · exact add_file_len_ge ⟨[]⟩ kKey _
      (le_of_eq (List.length_replicate _ _).symm)

/-- Claim C8 (amended): the insert fails, before any write to the
document, exactly when the serialized size is at least 150 MiB; for
strictly smaller payloads the write proceeds.  The hard bound is
enforced strictly: the maximum accepted size is `150 MiB - 1` byte. -/
theorem C8_amended_size_limit (d : Doc) (fid : String) (buf : List Nat) :
    (MAX_FILE_SIZE ≤ buf.length → add_file d fid buf = .error .sizeLimit) ∧
    (buf.length < MAX_FILE_SIZE →
      add_file d fid buf = .ok (set_bytes d fid buf)) :=
  ⟨add_file_len_ge d fid buf, add_file_len_lt d fid buf⟩

/-- Witness for amended C8: a three-byte payload is written, a 150 MiB
payload is rejected with no document mutation. -/
theorem C8_size_limit_witness :
    add_file ⟨[]⟩ kKey [0, 1, 2] = .ok (set_bytes ⟨[]⟩ kKey [0, 1, 2]) ∧
    add_file ⟨[]⟩ kKey (List.replicate MAX_FILE_SIZE 1) =
      .error .sizeLimit :=
  ⟨(C8_amended_size_limit ⟨[]⟩ kKey [0, 1, 2]).2
      (by norm_num [MAX_FILE_SIZE]),
    (C8_amended_size_limit ⟨[]⟩ kKey (List.replicate MAX_FILE_SIZE 1)).1
      (le_of_eq (List.length_replicate _ _).symm)⟩

/-- `TableType::Folder` as_ref name. -/
def folderName : String := "folder"

/-- `TableType::Node` as_ref name. -/
def nodeName : String := "node"

/-- `TableType::Resource1` as_ref name. -/
def resource1Name : String := "resource1"

/-- `TableType::Resource2` as_ref name. -/
def resource2Name : String := "resource2"

/-- `TableType::Resource3` as_ref name. -/
def resource3Name : String := "resource3"

/-- Subscription name for the folder dataset. -/
def foldersName : String := "folders"

/-- Subscription name for the node dataset. -/
def nodesName : String := "nodes"

/-- Subscription name for the resource1 dataset. -/
def resources1Name : String := "resources1"

/-- Subscription name for the resource2 dataset. -/
def resources2Name : String := "resources2"

/-- Subscription name for the resource3 dataset. -/
def resources3Name : String := "resources3"

/-- The `TableType` variants in `EnumIter` declaration order, by their
`AsRefStr` serialized names (src/lib.rs lines 47-61). -/
def tableTypeNames : List String :=
  [folderName, nodeName, resourceName, resource1Name, resource2Name,
    resource3Name]

/-- The table name `create_files` (src/store.rs lines 169-248) passes to
`subscribe_doc` for each `TableType` branch. -/
def subscribe_table_name (t : String) : Option String :=
  if t = resourceName then some resourcesName
  else if t = folderName then some foldersName
  else if t = nodeName then some nodesName
  else if t = resource1Name then some resources1Name
  else if t = resource2Name then some resources2Name
  else if t = resource3Name then some resources3Name
  else none

/-- All session names `create_files` subscribes, in iteration order. -/
def create_files_subscriptions : List String :=
  tableTypeNames.filterMap subscribe_table_name

/-- Claim C10: every registry-created session is subscribed under a
pluralized table name, none of which equals the excluded name
"resource"; hence the policy-exclusion early return in the
`RemoteInsert` handler never fires for a registry-created session, and a
non-tombstone insert for a fresh digest is always indexed — including on
the resource datasets. -/
theorem C10_no_excluded_subscription (n : String)
    (hn : n ∈ create_files_subscriptions) :
    create_files_subscriptions =
      [foldersName, nodesName, resourcesName, resources1Name,
        resources2Name, resources3Name] ∧
    n ≠ resourceName ∧
    ∀ (s : EventRemoteSync) (D k : String) (S : Nat),
      s.table_name = n → S ≠ 0 → alist_get s.hashmap D = none →
      alist_get (emit_doc_edit s (.insertRemote D k S)).hashmap D =
        some ⟨k, S, s.table_name⟩ := by
  have hall : ∀ m ∈ create_files_subscriptions, m ≠ resourceName := by
    decide
  refine ⟨by decide, hall n hn, ?_⟩
  intro s D k S hname hS hfresh
  have hne : ¬s.table_name = resourceName := by
    rw [hname]
    exact hall n hn
  by_cases hinit : s.init_successed = false <;>
    simp [emit_doc_edit, hne, hS, hinit, alist_or_insert, hfresh, alist_get]

/-- Witness for C10 at the "resources" subscription with a concrete
insert on a fresh session. -/
theorem C10_subscription_witness :
    create_files_subscriptions =
      [foldersName, nodesName, resourcesName, resources1Name,
        resources2Name, resources3Name] ∧
    resourcesName ≠ resourceName ∧
    alist_get (emit_doc_edit (EventRemoteSync.new resourcesName)
        (.insertRemote dHash kKey 5)).hashmap dHash =
      some ⟨kKey, 5, (EventRemoteSync.new resourcesName).table_name⟩ :=
  ⟨(C10_no_excluded_subscription resourcesName (by decide)).1,
    (C10_no_excluded_subscription resourcesName (by decide)).2.1,
    (C10_no_excluded_subscription resourcesName (by decide)).2.2
      (EventRemoteSync.new resourcesName) dHash kKey 5 rfl (by decide) rfl⟩
